import Mathlib

/-!
Verification development for the `llm-serving-tests` repository.

Part 1 embeds the SSE stream reconstructor of `internal/client`
(`parseSSEStream`, `toolCallBuilder.Accumulate`, `toolCallBuilder.Build`)
as pure Lean functions.  Part 2 embeds the eval orchestrator of
`internal/eval/runner.go` (`ClassMatches`, `Runner.Run` selection,
`runEvalInModes`, `runSingleEval`, and the sequential/parallel runners).
-/

namespace Client

/-- `Usage` from `internal/client/types.go`. -/
structure Usage where
  promptTokens : Int
  completionTokens : Int
  totalTokens : Int
deriving DecidableEq, Repr

/-- `ToolCallFunction` from `internal/client/types.go`. -/
structure ToolCallFunction where
  name : String
  arguments : String
deriving DecidableEq, Repr

/-- `ToolCall` from `internal/client/types.go`.  Go field `Type` is `type_` here. -/
structure ToolCall where
  id : String
  type_ : String
  function : ToolCallFunction
deriving DecidableEq, Repr

/-- `ToolCallFunctionDelta` from `internal/client/types.go`. -/
structure ToolCallFunctionDelta where
  name : String
  arguments : String
deriving DecidableEq, Repr

/-- `ToolCallDelta` from `internal/client/types.go`; `Index` is a Go `int`, embedded as `Int`. -/
structure ToolCallDelta where
  index : Int
  id : String
  type_ : String
  function : ToolCallFunctionDelta
deriving DecidableEq, Repr

/-- `ChunkDelta` from `internal/client/types.go`. -/
structure ChunkDelta where
  role : String
  content : String
  reasoningContent : String
  toolCalls : List ToolCallDelta
deriving DecidableEq, Repr

/-- `ChunkChoice` from `internal/client/types.go`; `FinishReason *string` is an `Option`. -/
structure ChunkChoice where
  index : Int
  delta : ChunkDelta
  finishReason : Option String
deriving DecidableEq, Repr

/-- `ChatCompletionChunk` from `internal/client/types.go`; `Usage *Usage` is an `Option`. -/
structure ChatCompletionChunk where
  id : String
  object : String
  created : Int
  model : String
  choices : List ChunkChoice
  usage : Option Usage
deriving DecidableEq, Repr

/-- `StreamResult` from `internal/client/client.go`. -/
structure StreamResult where
  content : String
  reasoningContent : String
  toolCalls : List ToolCall
  usage : Option Usage
  chunks : List ChatCompletionChunk
deriving DecidableEq, Repr

/-- `toolCallBuilder` from `internal/client/types.go`: the per-position accumulator.
Go's `strings.Builder` field is embedded as a `String` (WriteString is append). -/
structure ToolCallBuilder where
  id : String
  typ : String
  name : String
  arguments : String
deriving DecidableEq, Repr

/-- The zero value `&toolCallBuilder{}` allocated on first sight of a position. -/
def ToolCallBuilder.empty : ToolCallBuilder :=
  { id := "", typ := "", name := "", arguments := "" }

/-- `(*toolCallBuilder).Accumulate` from `internal/client/types.go`:
`id`/`typ`/`name` are assigned only when the delta's field is non-empty;
`arguments` always appends the delta's arguments fragment. -/
def ToolCallBuilder.accumulate (b : ToolCallBuilder) (delta : ToolCallDelta) : ToolCallBuilder :=
  { id := if delta.id = "" then b.id else delta.id
    typ := if delta.type_ = "" then b.typ else delta.type_
    name := if delta.function.name = "" then b.name else delta.function.name
    arguments := b.arguments ++ delta.function.arguments }

/-- `(*toolCallBuilder).Build` from `internal/client/types.go`. -/
def ToolCallBuilder.build (b : ToolCallBuilder) : ToolCall :=
  { id := b.id, type_ := b.typ
    function := { name := b.name, arguments := b.arguments } }

/-- The `map[int]*toolCallBuilder` of `parseSSEStream`, embedded as an association
list with at most one entry per key (insertion keeps the key's first slot). -/
def Builders : Type := List (Int × ToolCallBuilder)

/-- Map read: `toolCallBuilders[i]` with its `ok` flag. -/
def bLookup : List (Int × ToolCallBuilder) → Int → Option ToolCallBuilder
  | [], _ => none
  | (k, v) :: rest, i => if k = i then some v else bLookup rest i

/-- Map write: `toolCallBuilders[i] = b` (overwrites the existing entry, else appends). -/
def bUpdate : List (Int × ToolCallBuilder) → Int → ToolCallBuilder → List (Int × ToolCallBuilder)
  | [], i, b => [(i, b)]
  | (k, v) :: rest, i, b => if k = i then (i, b) :: rest else (k, v) :: bUpdate rest i b

/-- The tool-call accumulation step of `parseSSEStream` for one `ToolCallDelta`:
look up the builder at `tc.Index`, creating a zero builder when absent, then
`builder.Accumulate(tc)`.  (In Go the map holds a pointer, so the net effect of
lookup-or-create plus mutation is exactly this functional update.) -/
def accTC (bs : List (Int × ToolCallBuilder)) (tc : ToolCallDelta) :
    List (Int × ToolCallBuilder) :=
  let b := (bLookup bs tc.index).getD ToolCallBuilder.empty
  bUpdate bs tc.index (b.accumulate tc)

/-- The mutable accumulation state of one `parseSSEStream` call:
`result.Content`, `result.ReasoningContent`, the builder map, `result.Usage`
and `result.Chunks`. -/
structure AccState where
  content : String
  reasoningContent : String
  builders : List (Int × ToolCallBuilder)
  usage : Option Usage
  chunks : List ChatCompletionChunk

/-- `result := &StreamResult{}` plus the empty builder map. -/
def initState : AccState :=
  { content := "", reasoningContent := "", builders := [], usage := none, chunks := [] }

/-- The per-choice body of `parseSSEStream`'s `for _, choice := range chunk.Choices`
loop: append `delta.Content` and `delta.ReasoningContent`, then route every
`ToolCallDelta` of the choice to its builder. -/
def processChoice (s : AccState) (choice : ChunkChoice) : AccState :=
  { s with
    content := s.content ++ choice.delta.content
    reasoningContent := s.reasoningContent ++ choice.delta.reasoningContent
    builders := choice.delta.toolCalls.foldl accTC s.builders }

/-- The per-chunk body of `parseSSEStream`: record the chunk, replace usage when
the chunk carries one, then process every choice in list order. -/
def processChunk (s : AccState) (chunk : ChatCompletionChunk) : AccState :=
  let s := { s with
    chunks := s.chunks ++ [chunk]
    usage := match chunk.usage with
      | some u => some u
      | none => s.usage }
  chunk.choices.foldl processChoice s

/-- One input line of the SSE stream, with the outcome of Go's prefix test and
`json.Unmarshal` made explicit (the JSON decoder itself is Go stdlib, outside
this repository): `noData` is a line without the `"data: "` prefix, `done` is
the sentinel line, `chunk raw c` is a data line whose payload `raw` decodes to
chunk `c`, and `malformed raw` is a data line whose payload fails to decode. -/
inductive Line where
  | noData (raw : String)
  | done
  | chunk (raw : String) (c : ChatCompletionChunk)
  | malformed (raw : String)
deriving DecidableEq

/-- The verbatim text of the line as appended to `rawChunks`. -/
def Line.rawText : Line → String
  | .noData r => r
  | .done => "data: [DONE]"
  | .chunk r _ => "data: " ++ r
  | .malformed r => "data: " ++ r

/-- Whether the scan loop stops at this line (sentinel break or fatal decode error). -/
def Line.stops : Line → Bool
  | .done => true
  | .malformed _ => true
  | _ => false

/-- The scan loop of `parseSSEStream`.  Each line is appended to the raw log
(modelled as the list of logged lines) before anything else; a non-data line is
skipped; the sentinel breaks out successfully; a decoded chunk is accumulated;
a malformed data line aborts with `none`.  (The model input is a pure list, so
`scanner.Err()` is always nil.) -/
def scanLoop (s : AccState) (rawLog : List String) : List Line → Option AccState × List String
  | [] => (some s, rawLog)
  | l :: rest =>
    let rawLog := rawLog ++ [l.rawText]
    match l with
    | .noData _ => scanLoop s rawLog rest
    | .done => (some s, rawLog)
    | .chunk _ c => scanLoop (processChunk s c) rawLog rest
    | .malformed _ => (none, rawLog)

/-- The finalization loop of `parseSSEStream`:
`for i := 0; i < len(toolCallBuilders); i++ { if builder, ok := ...; ok { append(Build()) } }`. -/
def finalizeToolCalls (bs : List (Int × ToolCallBuilder)) : List ToolCall :=
  (List.range bs.length).filterMap
    (fun i => (bLookup bs (Int.ofNat i)).map ToolCallBuilder.build)

/-- Assembling the returned `*StreamResult` from the final accumulation state. -/
def finalizeState (s : AccState) : StreamResult :=
  { content := s.content
    reasoningContent := s.reasoningContent
    toolCalls := finalizeToolCalls s.builders
    usage := s.usage
    chunks := s.chunks }

/-- `rawChunks.Bytes()`: each logged line followed by a newline. -/
def rawBytes (rawLog : List String) : String :=
  String.join (rawLog.map (fun l => l ++ "\n"))

/-- `parseSSEStream` from `internal/client/types.go`: on success the finalized
`StreamResult` and the raw log; on a malformed data line no result (`none`) and
the raw log captured so far. -/
def parseSSEStream (lines : List Line) : Option StreamResult × String :=
  match scanLoop initState [] lines with
  | (some s, rawLog) => (some (finalizeState s), rawBytes rawLog)
  | (none, rawLog) => (none, rawBytes rawLog)

/-- The tool-call deltas one chunk contributes, across all of its choices in
list order (the order `parseSSEStream`'s nested loops visit them). -/
def chunkTCDeltas (c : ChatCompletionChunk) : List ToolCallDelta :=
  (c.choices.map (fun ch => ch.delta.toolCalls)).flatten

/-- All tool-call deltas of a chunk sequence, in visiting order. -/
def allTCDeltas (cs : List ChatCompletionChunk) : List ToolCallDelta :=
  (cs.map chunkTCDeltas).flatten

/-- The sub-sequence of tool-call deltas routed to position `p`, in arrival order. -/
def routedDeltas (cs : List ChatCompletionChunk) (p : Int) : List ToolCallDelta :=
  (allTCDeltas cs).filter (fun tc => tc.index = p)

/-- The most recent non-empty string of a list, or the default when none is. -/
def lastNonEmpty (l : List String) : String :=
  ((l.filter (fun x => x ≠ "")).getLast?).getD ""

/-- `lastNonEmpty` generalized over the starting value (the builder field's
current contents). -/
def lastNonEmptyFrom (d : String) (l : List String) : String :=
  ((l.filter (fun x => x ≠ "")).getLast?).getD d

/-- The positions the finalization loop emits, in loop order: those
`i ∈ [0, len)` at which a builder exists. -/
def emittedPositions (bs : List (Int × ToolCallBuilder)) : List Int :=
  ((List.range bs.length).filter
    (fun i => (bLookup bs (Int.ofNat i)).isSome)).map Int.ofNat

/-- Example for C1: a chunk carrying tool-call fragments at the non-contiguous
positions 0 and 2. -/
def c1Chunk : ChatCompletionChunk :=
  { id := "", object := "", created := 0, model := ""
    choices := [
      { index := 0
        delta := { role := "", content := "", reasoningContent := ""
                   toolCalls := [
                     { index := 0, id := "a", type_ := "function"
                       function := { name := "f", arguments := "x" } },
                     { index := 2, id := "b", type_ := "function"
                       function := { name := "g", arguments := "y" } }] }
        finishReason := none }]
    usage := none }

/-- Example stream for C1. -/
def c1Lines : List Line := [Line.chunk "c1" c1Chunk, Line.done]

/-- Example for C2, following spec §8: three fragments for position 0. -/
def c2Chunks : List ChatCompletionChunk :=
  [{ id := "", object := "", created := 0, model := ""
     choices := [
       { index := 0
         delta := { role := "", content := "", reasoningContent := ""
                    toolCalls := [
                      { index := 0, id := "abc", type_ := "function"
                        function := { name := "get_weather", arguments := "" } }] }
         finishReason := none }]
     usage := none },
   { id := "", object := "", created := 0, model := ""
     choices := [
       { index := 0
         delta := { role := "", content := "", reasoningContent := ""
                    toolCalls := [
                      { index := 0, id := "", type_ := ""
                        function := { name := "", arguments := "\x7b\"location\":" } }] }
         finishReason := none }]
     usage := none },
   { id := "", object := "", created := 0, model := ""
     choices := [
       { index := 0
         delta := { role := "", content := "", reasoningContent := ""
                    toolCalls := [
                      { index := 0, id := "", type_ := ""
                        function := { name := "", arguments := "\"SF\"\x7d" } }] }
         finishReason := none }]
     usage := none }]

/-- The final accumulation state of the C1 example stream. -/
def c1State : AccState := ((scanLoop initState [] c1Lines).1).getD initState

/-- The raw log of the C1 example stream. -/
def c1RawLog : List String := (scanLoop initState [] c1Lines).2

/-- Example stream for C2. -/
def c2Lines : List Line := c2Chunks.map (fun c => Line.chunk "c2" c) ++ [Line.done]

/-- The final accumulation state of the C2 example stream. -/
def c2State : AccState := ((scanLoop initState [] c2Lines).1).getD initState

/-- The raw log of the C2 example stream. -/
def c2RawLog : List String := (scanLoop initState [] c2Lines).2

/-- Example for C3: a well-formed chunk preceding the malformed line. -/
def c3Chunk : ChatCompletionChunk :=
  { id := "", object := "", created := 0, model := ""
    choices := [
      { index := 0
        delta := { role := "", content := "Hel", reasoningContent := "", toolCalls := [] }
        finishReason := none }]
    usage := none }

/-- Example for C7: two chunks each carrying a usage snapshot. -/
def c7Lines : List Line :=
  [Line.chunk "u1"
    { id := "", object := "", created := 0, model := "", choices := []
      usage := some { promptTokens := 1, completionTokens := 2, totalTokens := 3 } },
   Line.chunk "u2"
    { id := "", object := "", created := 0, model := "", choices := []
      usage := some { promptTokens := 10, completionTokens := 20, totalTokens := 30 } },
   Line.done]

/-- The final accumulation state of the C7 example stream. -/
def c7State : AccState := ((scanLoop initState [] c7Lines).1).getD initState

/-- The raw log of the C7 example stream. -/
def c7RawLog : List String := (scanLoop initState [] c7Lines).2

/-- Example for C10: one chunk carrying two choices, each with content and
reasoning fragments. -/
def c10Lines : List Line :=
  [Line.chunk "m"
    { id := "", object := "", created := 0, model := ""
      choices := [
        { index := 0
          delta := { role := "", content := "Hel", reasoningContent := "th", toolCalls := [] }
          finishReason := none },
        { index := 1
          delta := { role := "", content := "lo", reasoningContent := "ink", toolCalls := [] }
          finishReason := none }]
      usage := none },
   Line.done]

/-- The final accumulation state of the C10 example stream. -/
def c10State : AccState := ((scanLoop initState [] c10Lines).1).getD initState

/-- The raw log of the C10 example stream. -/
def c10RawLog : List String := (scanLoop initState [] c10Lines).2

end Client

namespace Eval

/-- `ClassStandard` from `internal/eval/runner.go`. -/
def ClassStandard : String := "standard"

/-- `ClassReasoning` from `internal/eval/runner.go`. -/
def ClassReasoning : String := "reasoning"

/-- `ClassInterleaved` from `internal/eval/runner.go`. -/
def ClassInterleaved : String := "interleaved"

/-- `ModeBlocking` from `internal/eval/runner.go` (`StreamMode` is a Go string). -/
def ModeBlocking : String := "blocking"

/-- `ModeStreaming` from `internal/eval/runner.go`. -/
def ModeStreaming : String := "streaming"

/-- `ModeBoth` from `internal/eval/runner.go`. -/
def ModeBoth : String := "both"

/-- `ClassMatches` from `internal/eval/runner.go`: the class-compatibility test. -/
def ClassMatches (evalClass requestedClass : String) : Bool :=
  if requestedClass = "" then true
  else if evalClass = requestedClass then true
  else if requestedClass = ClassReasoning && evalClass = ClassStandard then true
  else if requestedClass = ClassInterleaved &&
      (evalClass = ClassStandard || evalClass = ClassReasoning) then true
  else false

/-- `Result` from `internal/eval/runner.go`.  `Duration` is wall-clock time in
the source; the embedding takes it from an oracle in the config (below). -/
structure Result where
  name : String
  category : String
  passed : Bool
  message : String
  duration : Nat
deriving DecidableEq, Repr

/-- One registered eval, as the orchestrator sees it.  The `Eval` interface
gives `Name`, `Category`, `Class` and `Run`; the optional `StreamModeEval`
interface is the `supportsStreamMode` flag together with the mutable
`streaming` state its `SetStreaming`/`Streaming` methods expose; the optional
`DefaultDisabled` interface is the `hasDefaultDisabled` flag with its
`defaultDisabledFlag` answer.  The body `run` is the opaque case
implementation: of the `Result` it returns, only `Passed` and `Message`
survive (the runner overwrites `Name`, `Category`, `Duration`), so it is
embedded as a function from the eval's current streaming state to that pair. -/
structure EvalCase where
  name : String
  category : String
  className : String
  supportsStreamMode : Bool
  streaming : Bool
  hasDefaultDisabled : Bool
  defaultDisabledFlag : Bool
  run : Bool → Bool × String

/-- `IsDefaultDisabled` from `internal/eval/runner.go`: true only when the eval
implements the `DefaultDisabled` interface and its method returns true. -/
def IsDefaultDisabled (e : EvalCase) : Bool :=
  e.hasDefaultDisabled && e.defaultDisabledFlag

/-- `strings.Contains(s, sub)`: some position of `s` starts with `sub`. -/
def goContains (s sub : String) : Bool :=
  (List.range (s.toList.length + 1)).any
    (fun i => sub.toList.isPrefixOf (s.toList.drop i))

/-- The calls the runner makes on the logger collaborator
(`StartEval`, `LogResult`, `EndEval`), recorded as events. -/
inductive LogEvent where
  | startEval (name : String)
  | logResult (passed : Bool) (message : String)
  | endEval
deriving DecidableEq, Repr

/-- `RunnerConfig` from `internal/eval/runner.go`.  `hasLogger` is whether the
`Logger` pointer is non-nil; `durOf` is the wall-clock oracle supplying what
`time.Since(start)` returns for a given (case name, streaming) invocation. -/
structure RunnerConfig where
  verbose : Bool
  filter : String
  className : String
  all : Bool
  hasLogger : Bool
  jobs : Int
  mode : String
  durOf : String → Bool → Nat

/-- `Runner.runSingleEval` from `internal/eval/runner.go`: set the streaming
mode when the eval advertises `StreamModeEval`, qualify the name with the
mode suffix, log start/result/end when a logger is configured, and return the
`Result` (with `Name`, `Category`, `Duration` overwritten) plus the logger
events emitted. -/
def runSingleEval (cfg : RunnerConfig) (e : EvalCase) (streaming : Bool) :
    Result × List LogEvent :=
  let e := if e.supportsStreamMode then { e with streaming := streaming } else e
  let name := e.name ++ (if streaming then " (streaming)" else " (blocking)")
  let r := e.run e.streaming
  let result : Result :=
    { name := name, category := e.category, passed := r.1, message := r.2
      duration := cfg.durOf e.name streaming }
  let events :=
    if cfg.hasLogger then
      [LogEvent.startEval name, LogEvent.logResult r.1 r.2, LogEvent.endEval]
    else []
  (result, events)

/-- `Runner.runEvalInModes` from `internal/eval/runner.go`: empty mode defaults
to `ModeBoth`; blocking/streaming run once; both runs blocking then streaming;
any other mode string matches no switch case and yields nothing. -/
def runEvalInModes (cfg : RunnerConfig) (e : EvalCase) : List Result :=
  let mode := if cfg.mode = "" then ModeBoth else cfg.mode
  if mode = ModeBlocking then [(runSingleEval cfg e false).1]
  else if mode = ModeStreaming then [(runSingleEval cfg e true).1]
  else if mode = ModeBoth then
    [(runSingleEval cfg e false).1, (runSingleEval cfg e true).1]
  else []

/-- The selection loop at the top of `Runner.Run`: name filter (substring;
empty filter selects all), class filter via `ClassMatches`, and the
default-disabled skip unless `All` is set. -/
def selectEvals (cfg : RunnerConfig) (evals : List EvalCase) : List EvalCase :=
  evals.filter (fun e =>
    !(cfg.filter ≠ "" && !goContains e.name cfg.filter) &&
    ClassMatches e.className cfg.className &&
    !(!cfg.all && IsDefaultDisabled e))

/-- `Runner.runSequential`: results in registration order, each eval expanded
by `runEvalInModes` (category headers are console output only). -/
def runSequential (cfg : RunnerConfig) (evals : List EvalCase) : List Result :=
  evals.flatMap (fun e => runEvalInModes cfg e)

/-- The job stream `Runner.runParallel` sends on the `jobs` channel for one
eval: the same mode switch as `runEvalInModes`, defaulting empty to both. -/
def modeJobs (mode : String) (e : EvalCase) : List (EvalCase × Bool) :=
  if mode = ModeBlocking then [(e, false)]
  else if mode = ModeStreaming then [(e, true)]
  else if mode = ModeBoth then [(e, false), (e, true)]
  else []

/-- All jobs `Runner.runParallel` submits, in submission order. -/
def submittedJobs (cfg : RunnerConfig) (evals : List EvalCase) :
    List (EvalCase × Bool) :=
  evals.flatMap (modeJobs (if cfg.mode = "" then ModeBoth else cfg.mode))

/-- One job's Result in a parallel run.  `Name`, `Category` and `Duration`
are determined by the job itself (the mode suffix comes from the job's own
`streaming` flag, runner.go lines 412-418).  The streaming state the body
observes, however, is NOT pinned to the job's flag: both-mode jobs of one case
share the same eval pointer across concurrent workers, so `SetStreaming`
races with the sibling job's `Run` reading the unsynchronized field.  The
model therefore lets a capable eval's body observe an arbitrary `ob : Bool`
(a superset of the racy executions); a non-capable eval is never written to,
so its body always observes its own fixed default state. -/
def parallelJobResult (cfg : RunnerConfig) (e : EvalCase) (streaming : Bool)
    (ob : Bool) : Result :=
  let observed := if e.supportsStreamMode then ob else e.streaming
  let r := e.run observed
  { name := e.name ++ (if streaming then " (streaming)" else " (blocking)")
    category := e.category, passed := r.1, message := r.2
    duration := cfg.durOf e.name streaming }

/-- The observable outcomes of `Runner.runParallel` with any worker count ≥ 2:
Go channel semantics deliver every submitted job to exactly one worker, each
worker runs `runSingleEval` once per job and sends exactly one result, and the
single aggregator goroutine appends results in their (nondeterministic)
arrival order — so the collected list is some permutation of the per-job
results.  The nondeterminism is that arrival permutation plus, per job, the
streaming state the body observes (the `SetStreaming` data race described at
`parallelJobResult`; `obs` indexes jobs in submission order). -/
def ParallelOutcome (cfg : RunnerConfig) (evals : List EvalCase)
    (out : List Result) : Prop :=
  ∃ obs : Nat → Bool,
    out.Perm (((submittedJobs cfg evals).enum).map
      (fun p => parallelJobResult cfg p.2.1 p.2.2 (obs p.1)))

/-- `Runner.Run`: filter the registry, then run sequentially when `Jobs <= 1`,
else through the worker pool. -/
def RunOutcome (cfg : RunnerConfig) (registry : List EvalCase)
    (out : List Result) : Prop :=
  let selected := selectEvals cfg registry
  if cfg.jobs ≤ 1 then out = runSequential cfg selected
  else ParallelOutcome cfg selected out

/-- The rank of a class in the `standard < reasoning < interleaved` hierarchy. -/
def classRank (c : String) : Nat :=
  if c = ClassStandard then 0 else if c = ClassReasoning then 1 else 2

/-- Example evals for C4. -/
def c4Eval1 : EvalCase :=
  { name := "alpha", category := "Basic", className := "standard"
    supportsStreamMode := true, streaming := false
    hasDefaultDisabled := false, defaultDisabledFlag := false
    run := fun st => (st, "m1") }

/-- Second example eval for C4. -/
def c4Eval2 : EvalCase :=
  { name := "beta", category := "Tool Calling", className := "standard"
    supportsStreamMode := false, streaming := false
    hasDefaultDisabled := false, defaultDisabledFlag := false
    run := fun _ => (true, "m2") }

/-- Example config for C4: two workers, both modes. -/
def c4Cfg : RunnerConfig :=
  { verbose := false, filter := "", className := "", all := false
    hasLogger := false, jobs := 2, mode := "both", durOf := fun _ _ => 0 }

/-- Example registry for C4. -/
def c4Registry : List EvalCase := [c4Eval1, c4Eval2]

/-- One possible per-job observation for the C4 example: each body happens to
observe its own job's mode (the race resolves benignly). -/
def c4Obs : Nat → Bool := fun i => decide (i % 2 = 1)

/-- One possible parallel output for the C4 example (arrival in submission
order, observations per `c4Obs`). -/
def c4Out : List Result :=
  ((submittedJobs c4Cfg (selectEvals c4Cfg c4Registry)).enum).map
    (fun p => parallelJobResult c4Cfg p.2.1 p.2.2 (c4Obs p.1))

/-- Example eval for C5 that does not implement `StreamModeEval`; its body
reports the streaming state it observes. -/
def c5EvalPlain : EvalCase :=
  { name := "plain", category := "Basic", className := "standard"
    supportsStreamMode := false, streaming := false
    hasDefaultDisabled := false, defaultDisabledFlag := false
    run := fun st => (st, "observed") }

/-- Example eval for C5 that implements `StreamModeEval`. -/
def c5EvalSwitchable : EvalCase :=
  { name := "switchable", category := "Basic", className := "standard"
    supportsStreamMode := true, streaming := false
    hasDefaultDisabled := false, defaultDisabledFlag := false
    run := fun st => (st, "observed") }

/-- Example config for C5. -/
def c5Cfg : RunnerConfig :=
  { verbose := false, filter := "", className := "", all := false
    hasLogger := true, jobs := 1, mode := "both", durOf := fun _ _ => 0 }

/-- Example eval A (standard tier) for C6, from spec §8. -/
def c6A : EvalCase :=
  { name := "A", category := "Basic", className := "standard"
    supportsStreamMode := false, streaming := false
    hasDefaultDisabled := false, defaultDisabledFlag := false
    run := fun _ => (true, "") }

/-- Example eval B (reasoning tier) for C6. -/
def c6B : EvalCase :=
  { name := "B", category := "Reasoning", className := "reasoning"
    supportsStreamMode := false, streaming := false
    hasDefaultDisabled := false, defaultDisabledFlag := false
    run := fun _ => (true, "") }

/-- Example eval C (interleaved tier) for C6. -/
def c6C : EvalCase :=
  { name := "C", category := "Agentic", className := "interleaved"
    supportsStreamMode := false, streaming := false
    hasDefaultDisabled := false, defaultDisabledFlag := false
    run := fun _ => (true, "") }

/-- Example registry for C6. -/
def c6Evals : List EvalCase := [c6A, c6B, c6C]

/-- Example config for C6 requesting the reasoning tier. -/
def c6Cfg : RunnerConfig :=
  { verbose := false, filter := "", className := "reasoning", all := true
    hasLogger := false, jobs := 1, mode := "both", durOf := fun _ _ => 0 }

/-- Example eval for C8. -/
def c8Eval : EvalCase :=
  { name := "weather tool call", category := "Tool Calling", className := "standard"
    supportsStreamMode := true, streaming := false
    hasDefaultDisabled := false, defaultDisabledFlag := false
    run := fun _ => (true, "") }

/-- Example config for C8 running only the blocking mode. -/
def c8CfgBlocking : RunnerConfig :=
  { verbose := false, filter := "", className := "", all := false
    hasLogger := false, jobs := 1, mode := "blocking", durOf := fun _ _ => 0 }

/-- Example config for C8 running both modes. -/
def c8CfgBoth : RunnerConfig :=
  { verbose := false, filter := "", className := "", all := false
    hasLogger := false, jobs := 1, mode := "both", durOf := fun _ _ => 0 }

end Eval

namespace Client

theorem bLookup_bUpdate (bs : List (Int × ToolCallBuilder)) (k : Int)
    (v : ToolCallBuilder) (i : Int) :
    bLookup (bUpdate bs k v) i = if k = i then some v else bLookup bs i := by
  induction bs with
  | nil => simp [bUpdate, bLookup]
  | cons hd tl ih =>
    obtain ⟨k', v'⟩ := hd
    by_cases hk : k' = k
    · subst hk
      simp only [bUpdate, if_pos rfl, bLookup]
      by_cases hi : k' = i
      · subst hi; simp [bLookup]
      · simp [bLookup, hi]
    · simp only [bUpdate, if_neg hk, bLookup]
      by_cases hi : k' = i
      · subst hi
        have : ¬ k = k' := fun h => hk h.symm
        simp [bLookup, this]
      · simp [bLookup, hi, ih]

theorem keys_bUpdate (bs : List (Int × ToolCallBuilder)) (k : Int) (v : ToolCallBuilder) :
    (bUpdate bs k v).map Prod.fst =
      if (bLookup bs k).isSome then bs.map Prod.fst else bs.map Prod.fst ++ [k] := by
  induction bs with
  | nil => simp [bUpdate, bLookup]
  | cons hd tl ih =>
    obtain ⟨k', v'⟩ := hd
    by_cases hk : k' = k
    · subst hk; simp [bUpdate, bLookup]
    · simp only [bUpdate, if_neg hk, bLookup, List.map_cons, ih]
      by_cases hs : (bLookup tl k).isSome
      · simp [hs, hk]
      · simp only [eq_self_iff_true] at hs
        simp [hs, hk]

theorem bLookup_isSome_iff_mem (bs : List (Int × ToolCallBuilder)) (k : Int) :
    (bLookup bs k).isSome = true ↔ k ∈ bs.map Prod.fst := by
  induction bs with
  | nil => simp [bLookup]
  | cons hd tl ih =>
    obtain ⟨k', v'⟩ := hd
    by_cases hk : k' = k
    · subst hk; simp [bLookup]
    · simp only [bLookup, if_neg hk, List.map_cons, List.mem_cons]
      rw [ih]
      constructor
      · exact fun h => Or.inr h
      · rintro (h | h)
        · exact absurd h.symm hk
        · exact h

theorem nodup_keys_bUpdate (bs : List (Int × ToolCallBuilder)) (k : Int)
    (v : ToolCallBuilder) (h : (bs.map Prod.fst).Nodup) :
    ((bUpdate bs k v).map Prod.fst).Nodup := by
  rw [keys_bUpdate]
  by_cases hs : (bLookup bs k).isSome
  · simpa [hs]
  · have hmem : k ∉ bs.map Prod.fst := by
      rw [← bLookup_isSome_iff_mem]
      simpa using hs
    simp only [hs, Bool.false_eq_true, if_false]
    rw [List.nodup_append]
    refine ⟨h, List.nodup_singleton k, ?_⟩
    intro a ha hak
    rw [List.mem_singleton] at hak
    exact hmem (hak ▸ ha)

theorem length_bUpdate (bs : List (Int × ToolCallBuilder)) (k : Int) (v : ToolCallBuilder) :
    (bUpdate bs k v).length =
      if (bLookup bs k).isSome then bs.length else bs.length + 1 := by
  have h := keys_bUpdate bs k v
  by_cases hs : (bLookup bs k).isSome
  · simp only [hs, if_pos] at h ⊢
    calc (bUpdate bs k v).length = ((bUpdate bs k v).map Prod.fst).length := by simp
    _ = (bs.map Prod.fst).length := by rw [h]
    _ = bs.length := by simp
  · simp only [hs, if_neg, Bool.false_eq_true, if_false] at h ⊢
    calc (bUpdate bs k v).length = ((bUpdate bs k v).map Prod.fst).length := by simp
    _ = (bs.map Prod.fst ++ [k]).length := by rw [h]
    _ = bs.length + 1 := by simp

end Client

namespace Client

theorem foldl_append_factor (l : List String) :
    ∀ (x y : String), l.foldl (· ++ ·) (x ++ y) = x ++ l.foldl (· ++ ·) y := by
  induction l with
  | nil => intro x y; rfl
  | cons a t ih =>
    intro x y
    simp only [List.foldl_cons]
    rw [String.append_assoc, ih]

theorem sjoin_cons (a : String) (l : List String) :
    String.join (a :: l) = a ++ String.join l := by
  simp only [String.join, List.foldl_cons]
  have h : ("" : String) ++ a = a ++ "" := by simp
  rw [h, foldl_append_factor]

theorem lastNonEmptyFrom_cons (d x : String) (xs : List String) :
    lastNonEmptyFrom d (x :: xs) = lastNonEmptyFrom (if x = "" then d else x) xs := by
  by_cases hx : x = ""
  · simp [lastNonEmptyFrom, List.filter_cons, hx]
  · have hf : (x :: xs).filter (fun s => s ≠ "") = x :: xs.filter (fun s => s ≠ "") := by
      simp [List.filter_cons, hx]
    simp only [lastNonEmptyFrom, hf, if_neg hx]
    cases h : xs.filter (fun s => s ≠ "") with
    | nil => simp [h]
    | cons y ys =>
      have hne : (y :: ys) ≠ ([] : List String) := by simp
      have hsome : ((y :: ys).getLast?).isSome = true := by
        rw [List.getLast?_isSome]
        exact hne
      obtain ⟨z, hz⟩ := Option.isSome_iff_exists.mp hsome
      simp [h, List.getLast?_cons_cons, hz]

theorem foldl_accumulate_eq (l : List ToolCallDelta) : ∀ b : ToolCallBuilder,
    l.foldl ToolCallBuilder.accumulate b =
      { id := lastNonEmptyFrom b.id (l.map (fun tc => tc.id))
        typ := lastNonEmptyFrom b.typ (l.map (fun tc => tc.type_))
        name := lastNonEmptyFrom b.name (l.map (fun tc => tc.function.name))
        arguments := b.arguments ++ String.join (l.map (fun tc => tc.function.arguments)) } := by
  induction l with
  | nil =>
    intro b
    simp [lastNonEmptyFrom, String.join]
  | cons tc t ih =>
    intro b
    simp only [List.foldl_cons, List.map_cons, ih, ToolCallBuilder.accumulate]
    rw [lastNonEmptyFrom_cons, lastNonEmptyFrom_cons, lastNonEmptyFrom_cons, sjoin_cons,
      String.append_assoc]

theorem lookup_foldl_accTC (l : List ToolCallDelta) : ∀ (bs : List (Int × ToolCallBuilder)) (p : Int),
    bLookup (l.foldl accTC bs) p =
      if l.filter (fun tc => tc.index = p) = [] then bLookup bs p
      else some ((l.filter (fun tc => tc.index = p)).foldl ToolCallBuilder.accumulate
        ((bLookup bs p).getD ToolCallBuilder.empty)) := by
  induction l with
  | nil => intro bs p; simp
  | cons tc t ih =>
    intro bs p
    by_cases htc : tc.index = p
    · have hf : (tc :: t).filter (fun tc => tc.index = p) =
          tc :: t.filter (fun tc => tc.index = p) := by
        simp [List.filter_cons, htc]
      simp only [List.foldl_cons, hf]
      have hlk : bLookup (accTC bs tc) p =
          some (((bLookup bs p).getD ToolCallBuilder.empty).accumulate tc) := by
        simp only [accTC]
        rw [bLookup_bUpdate]
        simp [htc]
      rw [ih]
      by_cases hfl : t.filter (fun tc => tc.index = p) = []
      · simp [hfl, hlk]
      · simp [hfl, hlk]
    · have hf : (tc :: t).filter (fun tc => tc.index = p) =
          t.filter (fun tc => tc.index = p) := by
        simp [List.filter_cons, htc]
      simp only [List.foldl_cons, hf]
      have hlk : bLookup (accTC bs tc) p = bLookup bs p := by
        simp only [accTC]
        rw [bLookup_bUpdate]
        simp [htc]
      rw [ih, hlk]

end Client

namespace Client

theorem foldl_processChoice_chunks (l : List ChunkChoice) : ∀ s : AccState,
    (l.foldl processChoice s).chunks = s.chunks := by
  induction l with
  | nil => intro s; rfl
  | cons c t ih => intro s; rw [List.foldl_cons, ih]; rfl

theorem foldl_processChoice_usage (l : List ChunkChoice) : ∀ s : AccState,
    (l.foldl processChoice s).usage = s.usage := by
  induction l with
  | nil => intro s; rfl
  | cons c t ih => intro s; rw [List.foldl_cons, ih]; rfl

theorem foldl_processChoice_content (l : List ChunkChoice) : ∀ s : AccState,
    (l.foldl processChoice s).content =
      s.content ++ String.join (l.map (fun ch => ch.delta.content)) := by
  induction l with
  | nil => intro s; simp [String.join]
  | cons c t ih =>
    intro s
    rw [List.foldl_cons, ih, List.map_cons, sjoin_cons, ← String.append_assoc]
    rfl

theorem foldl_processChoice_reasoning (l : List ChunkChoice) : ∀ s : AccState,
    (l.foldl processChoice s).reasoningContent =
      s.reasoningContent ++ String.join (l.map (fun ch => ch.delta.reasoningContent)) := by
  induction l with
  | nil => intro s; simp [String.join]
  | cons c t ih =>
    intro s
    rw [List.foldl_cons, ih, List.map_cons, sjoin_cons, ← String.append_assoc]
    rfl

theorem foldl_processChoice_builders (l : List ChunkChoice) : ∀ s : AccState,
    (l.foldl processChoice s).builders =
      ((l.map (fun ch => ch.delta.toolCalls)).flatten).foldl accTC s.builders := by
  induction l with
  | nil => intro s; rfl
  | cons c t ih =>
    intro s
    rw [List.foldl_cons, ih, List.map_cons, List.flatten_cons, List.foldl_append]
    rfl

theorem processChunk_chunks (s : AccState) (c : ChatCompletionChunk) :
    (processChunk s c).chunks = s.chunks ++ [c] := by
  unfold processChunk
  rw [foldl_processChoice_chunks]

theorem processChunk_usage (s : AccState) (c : ChatCompletionChunk) :
    (processChunk s c).usage = match c.usage with
      | some u => some u
      | none => s.usage := by
  unfold processChunk
  rw [foldl_processChoice_usage]

theorem processChunk_content (s : AccState) (c : ChatCompletionChunk) :
    (processChunk s c).content =
      s.content ++ String.join (c.choices.map (fun ch => ch.delta.content)) := by
  unfold processChunk
  rw [foldl_processChoice_content]

theorem processChunk_reasoning (s : AccState) (c : ChatCompletionChunk) :
    (processChunk s c).reasoningContent =
      s.reasoningContent ++ String.join (c.choices.map (fun ch => ch.delta.reasoningContent)) := by
  unfold processChunk
  rw [foldl_processChoice_reasoning]

theorem processChunk_builders (s : AccState) (c : ChatCompletionChunk) :
    (processChunk s c).builders = (chunkTCDeltas c).foldl accTC s.builders := by
  unfold processChunk chunkTCDeltas
  rw [foldl_processChoice_builders]

theorem getLast?_append_cons {α : Type} (xs : List α) (y : α) (ys : List α) :
    (xs ++ y :: ys).getLast? = (y :: ys).getLast? := by
  rw [List.getLast?_append]
  have hne : (y :: ys) ≠ ([] : List α) := by simp
  have hsome : ((y :: ys).getLast?).isSome = true := by
    rw [List.getLast?_isSome]
    exact hne
  obtain ⟨z, hz⟩ := Option.isSome_iff_exists.mp hsome
  simp [hz]

theorem replay_chunks (cs : List ChatCompletionChunk) : ∀ s : AccState,
    (cs.foldl processChunk s).chunks = s.chunks ++ cs := by
  induction cs with
  | nil => intro s; simp
  | cons c t ih =>
    intro s
    rw [List.foldl_cons, ih, processChunk_chunks, List.append_assoc]
    rfl

theorem replay_content (cs : List ChatCompletionChunk) : ∀ s : AccState,
    (cs.foldl processChunk s).content =
      s.content ++
        String.join (cs.map (fun c => String.join (c.choices.map (fun ch => ch.delta.content)))) := by
  induction cs with
  | nil => intro s; simp [String.join]
  | cons c t ih =>
    intro s
    rw [List.foldl_cons, ih, processChunk_content, List.map_cons, sjoin_cons,
      String.append_assoc]

theorem replay_reasoning (cs : List ChatCompletionChunk) : ∀ s : AccState,
    (cs.foldl processChunk s).reasoningContent =
      s.reasoningContent ++
        String.join
          (cs.map (fun c => String.join (c.choices.map (fun ch => ch.delta.reasoningContent)))) := by
  induction cs with
  | nil => intro s; simp [String.join]
  | cons c t ih =>
    intro s
    rw [List.foldl_cons, ih, processChunk_reasoning, List.map_cons, sjoin_cons,
      String.append_assoc]

theorem replay_builders (cs : List ChatCompletionChunk) : ∀ s : AccState,
    (cs.foldl processChunk s).builders = (allTCDeltas cs).foldl accTC s.builders := by
  induction cs with
  | nil => intro s; rfl
  | cons c t ih =>
    intro s
    rw [List.foldl_cons, ih, processChunk_builders]
    unfold allTCDeltas
    rw [List.map_cons, List.flatten_cons, List.foldl_append]

theorem replay_usage (cs : List ChatCompletionChunk) : ∀ s : AccState,
    (cs.foldl processChunk s).usage =
      (s.usage.toList ++ cs.filterMap (fun c => c.usage)).getLast? := by
  induction cs with
  | nil =>
    intro s
    cases hu : s.usage with
    | none => simp [hu]
    | some u => simp [hu]
  | cons c t ih =>
    intro s
    rw [List.foldl_cons, ih]
    cases hu : c.usage with
    | none =>
      have h1 : (processChunk s c).usage = s.usage := by rw [processChunk_usage, hu]
      rw [h1, List.filterMap_cons, hu]
    | some u =>
      have h1 : (processChunk s c).usage = some u := by rw [processChunk_usage, hu]
      rw [h1, List.filterMap_cons, hu, getLast?_append_cons]
      simp

end Client

namespace Client

theorem scanLoop_some_replay (ls : List Line) :
    ∀ (s0 : AccState) (rl : List String) (s : AccState) (raw : List String),
    scanLoop s0 rl ls = (some s, raw) →
      ∃ cs : List ChatCompletionChunk, s = cs.foldl processChunk s0 := by
  induction ls with
  | nil =>
    intro s0 rl s raw h
    simp only [scanLoop, Prod.mk.injEq, Option.some.injEq] at h
    exact ⟨[], by simp [h.1.symm]⟩
  | cons l rest ih =>
    intro s0 rl s raw h
    cases l with
    | noData r =>
      simp only [scanLoop] at h
      exact ih _ _ _ _ h
    | done =>
      simp only [scanLoop, Prod.mk.injEq, Option.some.injEq] at h
      exact ⟨[], by simp [h.1.symm]⟩
    | chunk r c =>
      simp only [scanLoop] at h
      obtain ⟨cs, hcs⟩ := ih _ _ _ _ h
      exact ⟨c :: cs, by simp [hcs]⟩
    | malformed r =>
      simp only [scanLoop, Prod.mk.injEq] at h
      exact absurd h.1 (by simp)

theorem scanLoop_malformed (good : List Line) :
    (∀ l ∈ good, l.stops = false) →
    ∀ (s0 : AccState) (rl : List String) (m : String) (rest : List Line),
    scanLoop s0 rl (good ++ Line.malformed m :: rest) =
      (none, rl ++ good.map Line.rawText ++ [Line.rawText (Line.malformed m)]) := by
  induction good with
  | nil =>
    intro _ s0 rl m rest
    simp [scanLoop]
  | cons l g ih =>
    intro hg s0 rl m rest
    have hl : l.stops = false := hg l (by simp)
    have hg' : ∀ l' ∈ g, l'.stops = false := fun l' h' => hg l' (by simp [h'])
    cases l with
    | done => simp [Line.stops] at hl
    | malformed r => simp [Line.stops] at hl
    | noData r =>
      rw [List.cons_append]
      show scanLoop s0 (rl ++ [Line.rawText (Line.noData r)]) (g ++ Line.malformed m :: rest) = _
      rw [ih hg']
      simp [List.append_assoc]
    | chunk r c =>
      rw [List.cons_append]
      show scanLoop (processChunk s0 c) (rl ++ [Line.rawText (Line.chunk r c)])
        (g ++ Line.malformed m :: rest) = _
      rw [ih hg']
      simp [List.append_assoc]

theorem filterMap_eq_filter_map {α β γ : Type} (l : List α) (g : α → Option β)
    (h : β → γ) (d : β) :
    l.filterMap (fun i => (g i).map h) =
      (l.filter (fun i => (g i).isSome)).map (fun i => h ((g i).getD d)) := by
  induction l with
  | nil => simp
  | cons a t ih =>
    cases hg : g a with
    | none => simp [List.filterMap_cons, List.filter_cons, hg, ih]
    | some b => simp [List.filterMap_cons, List.filter_cons, hg, ih]

theorem finalizeToolCalls_eq (bs : List (Int × ToolCallBuilder)) :
    finalizeToolCalls bs =
      (emittedPositions bs).map
        (fun p => ((bLookup bs p).getD ToolCallBuilder.empty).build) := by
  unfold finalizeToolCalls emittedPositions
  rw [filterMap_eq_filter_map _ _ _ ToolCallBuilder.empty, List.map_map]
  rfl

theorem emittedPositions_sorted (bs : List (Int × ToolCallBuilder)) :
    List.Pairwise (· < ·) (emittedPositions bs) := by
  unfold emittedPositions
  rw [List.pairwise_map]
  apply List.Pairwise.filter
  exact (List.pairwise_lt_range bs.length).imp (fun h => Int.ofNat_lt.mpr h)

theorem mem_emittedPositions (bs : List (Int × ToolCallBuilder)) (p : Int) :
    p ∈ emittedPositions bs ↔
      (0 ≤ p ∧ p < (bs.length : Int) ∧ (bLookup bs p).isSome = true) := by
  unfold emittedPositions
  simp only [List.mem_map, List.mem_filter, List.mem_range]
  constructor
  · rintro ⟨i, ⟨hir, hsome⟩, rfl⟩
    refine ⟨Int.ofNat_nonneg i, ?_, hsome⟩
    show (i : Int) < (bs.length : Int)
    exact_mod_cast hir
  · rintro ⟨h0, hlt, hsome⟩
    obtain ⟨i, rfl⟩ := Int.eq_ofNat_of_zero_le h0
    refine ⟨i, ⟨by omega, ?_⟩, rfl⟩
    exact hsome

theorem fold_accTC_nodup_keys (l : List ToolCallDelta) :
    ∀ bs : List (Int × ToolCallBuilder),
    (bs.map Prod.fst).Nodup → ((l.foldl accTC bs).map Prod.fst).Nodup := by
  induction l with
  | nil => intro bs h; exact h
  | cons tc t ih =>
    intro bs h
    rw [List.foldl_cons]
    exact ih _ (nodup_keys_bUpdate _ _ _ h)

theorem fold_accTC_isSome (l : List ToolCallDelta) (bs : List (Int × ToolCallBuilder)) (p : Int) :
    (bLookup (l.foldl accTC bs) p).isSome = true ↔
      ((bLookup bs p).isSome = true ∨ p ∈ l.map (fun tc => tc.index)) := by
  rw [lookup_foldl_accTC]
  by_cases hfl : l.filter (fun tc => tc.index = p) = []
  · have hmem : p ∉ l.map (fun tc => tc.index) := by
      rw [List.filter_eq_nil_iff] at hfl
      simp only [List.mem_map]
      rintro ⟨tc, htc, rfl⟩
      exact hfl tc htc (by simp)
    simp [hfl, hmem]
  · have hmem : p ∈ l.map (fun tc => tc.index) := by
      obtain ⟨tc, htcmem⟩ := List.exists_mem_of_ne_nil _ hfl
      rw [List.mem_filter] at htcmem
      simp only [List.mem_map]
      exact ⟨tc, htcmem.1, by simpa using htcmem.2⟩
    simp [hfl, hmem]

theorem builders_count_distinct (cs : List ChatCompletionChunk) :
    ((allTCDeltas cs).foldl accTC []).length =
      (((allTCDeltas cs).map (fun tc => tc.index)).toFinset).card := by
  set bs := (allTCDeltas cs).foldl accTC [] with hbs
  have hnodup : (bs.map Prod.fst).Nodup := by
    rw [hbs]
    exact fold_accTC_nodup_keys _ [] (by simp)
  have hsetEq : (bs.map Prod.fst).toFinset =
      ((allTCDeltas cs).map (fun tc => tc.index)).toFinset := by
    apply Finset.ext
    intro k
    rw [List.mem_toFinset, List.mem_toFinset, ← bLookup_isSome_iff_mem, hbs,
      fold_accTC_isSome]
    simp [bLookup]
  calc bs.length = (bs.map Prod.fst).length := by simp
  _ = (bs.map Prod.fst).toFinset.card := (List.toFinset_card_of_nodup hnodup).symm
  _ = (((allTCDeltas cs).map (fun tc => tc.index)).toFinset).card := by rw [hsetEq]

end Client

namespace Client

/-- C1: after consumption ends (sentinel or input exhaustion), `parseSSEStream`
finalizes tool calls by walking builder positions in ascending order from 0 up
to (excluding) the count of distinct positions seen (`s.builders.length`),
emitting the builder at each position that exists; hence the finalized list is
position-ordered and any builder at a position outside `[0, count)` — as with
non-contiguous positions such as \x7b0,2\x7d and count 2 — is dropped. -/
theorem c1_finalize_by_count (lines : List Line) (s : AccState) (rawLog : List String)
    (h : scanLoop initState [] lines = (some s, rawLog)) :
    ∃ r : StreamResult,
      parseSSEStream lines = (some r, rawBytes rawLog) ∧
      List.Pairwise (· < ·) (emittedPositions s.builders) ∧
      (∀ p : Int, (bLookup s.builders p).isSome = true →
        (p ∈ emittedPositions s.builders ↔ 0 ≤ p ∧ p < (s.builders.length : Int))) ∧
      (∀ p ∈ emittedPositions s.builders, (bLookup s.builders p).isSome = true) ∧
      r.toolCalls = (emittedPositions s.builders).map
        (fun p => ((bLookup s.builders p).getD ToolCallBuilder.empty).build) ∧
      s.builders.length =
        (((allTCDeltas s.chunks).map (fun tc => tc.index)).toFinset).card := by
  obtain ⟨cs, hcs⟩ := scanLoop_some_replay lines initState [] s rawLog h
  have hchunks : s.chunks = cs := by
    rw [hcs, replay_chunks]
    simp [initState]
  have hbuilders : s.builders = (allTCDeltas cs).foldl accTC [] := by
    rw [hcs, replay_builders]
    rfl
  refine ⟨finalizeState s, ?_, emittedPositions_sorted _, ?_, ?_, ?_, ?_⟩
  · unfold parseSSEStream
    rw [h]
  · intro p hp
    rw [mem_emittedPositions]
    constructor
    · rintro ⟨h0, hlt, _⟩
      exact ⟨h0, hlt⟩
    · rintro ⟨h0, hlt⟩
      exact ⟨h0, hlt, hp⟩
  · intro p hp
    exact ((mem_emittedPositions _ _).mp hp).2.2
  · exact finalizeToolCalls_eq s.builders
  · rw [hchunks, hbuilders]
    exact builders_count_distinct cs

/-- C2: for the fragments routed to one position, the finalized tool call's
`id`, `type` and `name` each equal the most recent non-empty value of that
field across the fragments in arrival order (an empty value never clears a
previous one), while `arguments` is the concatenation of all argument pieces
in arrival order. -/
theorem c2_last_nonempty_wins (lines : List Line) (s : AccState) (rawLog : List String)
    (h : scanLoop initState [] lines = (some s, rawLog)) (p : Int) (b : ToolCallBuilder)
    (hb : bLookup s.builders p = some b) :
    b.build =
      { id := lastNonEmpty ((routedDeltas s.chunks p).map (fun tc => tc.id))
        type_ := lastNonEmpty ((routedDeltas s.chunks p).map (fun tc => tc.type_))
        function :=
          { name := lastNonEmpty ((routedDeltas s.chunks p).map (fun tc => tc.function.name))
            arguments :=
              String.join ((routedDeltas s.chunks p).map (fun tc => tc.function.arguments)) } } := by
  obtain ⟨cs, hcs⟩ := scanLoop_some_replay lines initState [] s rawLog h
  have hchunks : s.chunks = cs := by
    rw [hcs, replay_chunks]
    simp [initState]
  have hbuilders : s.builders = (allTCDeltas cs).foldl accTC [] := by
    rw [hcs, replay_builders]
    rfl
  rw [hbuilders, lookup_foldl_accTC] at hb
  rw [hchunks]
  by_cases hfl : (allTCDeltas cs).filter (fun tc => tc.index = p) = []
  · rw [if_pos hfl] at hb
    exact absurd hb (by simp [bLookup])
  · rw [if_neg hfl] at hb
    have hbval : b = ((allTCDeltas cs).filter (fun tc => tc.index = p)).foldl
        ToolCallBuilder.accumulate ToolCallBuilder.empty := by
      exact (Option.some.inj hb).symm
    rw [hbval, foldl_accumulate_eq]
    unfold ToolCallBuilder.build routedDeltas lastNonEmpty lastNonEmptyFrom
      ToolCallBuilder.empty
    simp

/-- C3: a data line whose payload fails to parse as JSON is fatal:
`parseSSEStream` returns no result (`nil`) together with exactly the raw
frames captured so far — every earlier line plus the offending line itself —
and the remainder of the input is not consumed. -/
theorem c3_malformed_fatal (good : List Line) (m : String) (rest : List Line)
    (hg : ∀ l ∈ good, l.stops = false) :
    parseSSEStream (good ++ Line.malformed m :: rest) =
      (none, rawBytes (good.map Line.rawText ++ ["data: " ++ m])) := by
  unfold parseSSEStream
  rw [scanLoop_malformed good hg initState [] m rest]
  simp [Line.rawText]

/-- C7: usage is last-wins — the reconstructed result's usage equals the usage
snapshot of the last consumed chunk that carried one (fully replacing earlier
snapshots), and is `none` when no consumed chunk carried one. -/
theorem c7_usage_last_wins (lines : List Line) (s : AccState) (rawLog : List String)
    (h : scanLoop initState [] lines = (some s, rawLog)) :
    ∃ r : StreamResult,
      parseSSEStream lines = (some r, rawBytes rawLog) ∧
      r.usage = (s.chunks.filterMap (fun c => c.usage)).getLast? := by
  obtain ⟨cs, hcs⟩ := scanLoop_some_replay lines initState [] s rawLog h
  have hchunks : s.chunks = cs := by
    rw [hcs, replay_chunks]
    simp [initState]
  refine ⟨finalizeState s, ?_, ?_⟩
  · unfold parseSSEStream
    rw [h]
  · show s.usage = _
    rw [hchunks, hcs, replay_usage]
    simp [initState]

/-- C10: the reconstructor accumulates over every entry of each chunk's
choices list in list order — the final content and reasoning are the
concatenations over all choices of all consumed chunks, and the builder map is
the fold of the tool-call deltas of all choices of all consumed chunks. -/
theorem c10_all_choices (lines : List Line) (s : AccState) (rawLog : List String)
    (h : scanLoop initState [] lines = (some s, rawLog)) :
    ∃ r : StreamResult,
      parseSSEStream lines = (some r, rawBytes rawLog) ∧
      r.content = String.join
        (s.chunks.map (fun c => String.join (c.choices.map (fun ch => ch.delta.content)))) ∧
      r.reasoningContent = String.join
        (s.chunks.map
          (fun c => String.join (c.choices.map (fun ch => ch.delta.reasoningContent)))) ∧
      s.builders = (allTCDeltas s.chunks).foldl accTC [] := by
  obtain ⟨cs, hcs⟩ := scanLoop_some_replay lines initState [] s rawLog h
  have hchunks : s.chunks = cs := by
    rw [hcs, replay_chunks]
    simp [initState]
  refine ⟨finalizeState s, ?_, ?_, ?_, ?_⟩
  · unfold parseSSEStream
    rw [h]
  · show s.content = _
    rw [hchunks, hcs, replay_content]
    simp [initState]
  · show s.reasoningContent = _
    rw [hchunks, hcs, replay_reasoning]
    simp [initState]
  · rw [hchunks, hcs, replay_builders]
    rfl

end Client

namespace Client

/-- Witness for C1 at a stream whose tool-call fragments sit at the
non-contiguous positions 0 and 2: the hypotheses hold and the conclusion
applies. -/
theorem c1_finalize_by_count_witness :
    ∃ r : StreamResult,
      parseSSEStream c1Lines = (some r, rawBytes c1RawLog) ∧
      List.Pairwise (· < ·) (emittedPositions c1State.builders) ∧
      (∀ p : Int, (bLookup c1State.builders p).isSome = true →
        (p ∈ emittedPositions c1State.builders ↔
          0 ≤ p ∧ p < (c1State.builders.length : Int))) ∧
      (∀ p ∈ emittedPositions c1State.builders,
        (bLookup c1State.builders p).isSome = true) ∧
      r.toolCalls = (emittedPositions c1State.builders).map
        (fun p => ((bLookup c1State.builders p).getD ToolCallBuilder.empty).build) ∧
      c1State.builders.length =
        (((allTCDeltas c1State.chunks).map (fun tc => tc.index)).toFinset).card :=
  c1_finalize_by_count c1Lines c1State c1RawLog (by rfl)

/-- Witness for C2 at the spec §8 example stream. -/
theorem c2_last_nonempty_wins_witness :
    ToolCallBuilder.build
        { id := "abc", typ := "function", name := "get_weather"
          arguments := "\x7b\"location\":\"SF\"\x7d" } =
      { id := lastNonEmpty ((routedDeltas c2State.chunks 0).map (fun tc => tc.id))
        type_ := lastNonEmpty ((routedDeltas c2State.chunks 0).map (fun tc => tc.type_))
        function :=
          { name := lastNonEmpty ((routedDeltas c2State.chunks 0).map (fun tc => tc.function.name))
            arguments :=
              String.join ((routedDeltas c2State.chunks 0).map
                (fun tc => tc.function.arguments)) } } :=
  c2_last_nonempty_wins c2Lines c2State c2RawLog (by rfl) 0
    { id := "abc", typ := "function", name := "get_weather"
      arguments := "\x7b\"location\":\"SF\"\x7d" } (by rfl)

/-- Witness for C3: a malformed data line after one good chunk aborts with the
raw log up to and including the offending line. -/
theorem c3_malformed_fatal_witness :
    parseSSEStream ([Line.chunk "g" c3Chunk] ++ Line.malformed "oops" :: [Line.done]) =
      (none, rawBytes ([Line.chunk "g" c3Chunk].map Line.rawText ++ ["data: " ++ "oops"])) :=
  c3_malformed_fatal [Line.chunk "g" c3Chunk] "oops" [Line.done] (by decide)

/-- Witness for C7: of two usage snapshots only the second survives. -/
theorem c7_usage_last_wins_witness :
    (∃ r : StreamResult,
      parseSSEStream c7Lines = (some r, rawBytes c7RawLog) ∧
      r.usage = (c7State.chunks.filterMap (fun c => c.usage)).getLast?) ∧
    (c7State.chunks.filterMap (fun c => c.usage)).getLast? =
      some { promptTokens := 10, completionTokens := 20, totalTokens := 30 } :=
  ⟨c7_usage_last_wins c7Lines c7State c7RawLog (by rfl), by rfl⟩

/-- Witness for C10: one chunk carrying two choices contributes both choices'
content and reasoning fragments, in order. -/
theorem c10_all_choices_witness :
    (∃ r : StreamResult,
      parseSSEStream c10Lines = (some r, rawBytes c10RawLog) ∧
      r.content = String.join
        (c10State.chunks.map
          (fun c => String.join (c.choices.map (fun ch => ch.delta.content)))) ∧
      r.reasoningContent = String.join
        (c10State.chunks.map
          (fun c => String.join (c.choices.map (fun ch => ch.delta.reasoningContent)))) ∧
      c10State.builders = (allTCDeltas c10State.chunks).foldl accTC []) ∧
    String.join
      (c10State.chunks.map
        (fun c => String.join (c.choices.map (fun ch => ch.delta.content)))) = "Hello" ∧
    String.join
      (c10State.chunks.map
        (fun c => String.join (c.choices.map (fun ch => ch.delta.reasoningContent)))) =
      "think" :=
  ⟨c10_all_choices c10Lines c10State c10RawLog (by rfl), by rfl, by rfl⟩

end Client

namespace Eval

theorem flatMap_pair_length {α β : Type} (f g : α → β) (l : List α) :
    (l.flatMap (fun a => [f a, g a])).length = 2 * l.length := by
  induction l with
  | nil => simp
  | cons a t ih =>
    simp only [List.flatMap_cons, List.length_append, List.length_cons, ih]
    simp
    omega

theorem runEvalInModes_both (cfg : RunnerConfig) (e : EvalCase) (hm : cfg.mode = ModeBoth) :
    runEvalInModes cfg e = [(runSingleEval cfg e false).1, (runSingleEval cfg e true).1] := by
  unfold runEvalInModes
  rw [hm]
  simp [ModeBoth, ModeBlocking, ModeStreaming]

theorem submittedJobs_both (cfg : RunnerConfig) (evals : List EvalCase)
    (hm : cfg.mode = ModeBoth ∨ cfg.mode = "") :
    submittedJobs cfg evals = evals.flatMap (fun e => [(e, false), (e, true)]) := by
  unfold submittedJobs modeJobs
  rcases hm with hm | hm <;> rw [hm] <;> simp [ModeBoth, ModeBlocking, ModeStreaming]

theorem flatMap_singleton_map {α β : Type} (f : α → β) (l : List α) :
    l.flatMap (fun a => [f a]) = l.map f := by
  induction l with
  | nil => rfl
  | cons a t ih => simp [List.flatMap_cons, ih]

theorem submittedJobs_blocking (cfg : RunnerConfig) (evals : List EvalCase)
    (hm : cfg.mode = ModeBlocking) :
    submittedJobs cfg evals = evals.map (fun e => (e, false)) := by
  have h1 : submittedJobs cfg evals = evals.flatMap (fun e => [(e, false)]) := by
    unfold submittedJobs modeJobs
    rw [hm]
    simp [ModeBoth, ModeBlocking, ModeStreaming]
  rw [h1, flatMap_singleton_map]

theorem submittedJobs_streaming (cfg : RunnerConfig) (evals : List EvalCase)
    (hm : cfg.mode = ModeStreaming) :
    submittedJobs cfg evals = evals.map (fun e => (e, true)) := by
  have h1 : submittedJobs cfg evals = evals.flatMap (fun e => [(e, true)]) := by
    unfold submittedJobs modeJobs
    rw [hm]
    simp [ModeBoth, ModeBlocking, ModeStreaming]
  rw [h1, flatMap_singleton_map]

theorem runEvalInModes_eq_modeJobs (cfg : RunnerConfig) (e : EvalCase) :
    runEvalInModes cfg e =
      (modeJobs (if cfg.mode = "" then ModeBoth else cfg.mode) e).map
        (fun j => (runSingleEval cfg j.1 j.2).1) := by
  simp only [runEvalInModes, modeJobs]
  by_cases hb : (if cfg.mode = "" then ModeBoth else cfg.mode) = ModeBlocking
  · rw [hb]
    simp [ModeBlocking, ModeStreaming, ModeBoth]
  · rw [if_neg hb, if_neg hb]
    by_cases hs : (if cfg.mode = "" then ModeBoth else cfg.mode) = ModeStreaming
    · rw [hs]
      simp [ModeBlocking, ModeStreaming, ModeBoth]
    · rw [if_neg hs, if_neg hs]
      by_cases ho : (if cfg.mode = "" then ModeBoth else cfg.mode) = ModeBoth
      · rw [ho]
        simp [ModeBlocking, ModeStreaming, ModeBoth]
      · rw [if_neg ho, if_neg ho]
        rfl

theorem runSequential_eq_jobs_map (cfg : RunnerConfig) (evals : List EvalCase) :
    runSequential cfg evals =
      (submittedJobs cfg evals).map (fun j => (runSingleEval cfg j.1 j.2).1) := by
  unfold runSequential submittedJobs
  induction evals with
  | nil => rfl
  | cons e t ih =>
    rw [List.flatMap_cons, List.flatMap_cons, List.map_append, ih]
    congr 1
    exact runEvalInModes_eq_modeJobs cfg e

theorem runSingleEval_name (cfg : RunnerConfig) (e : EvalCase) (st : Bool) :
    (runSingleEval cfg e st).1.name =
      e.name ++ (if st then " (streaming)" else " (blocking)") := by
  cases hsm : e.supportsStreamMode <;> simp [runSingleEval, hsm]

theorem runSingleEval_category (cfg : RunnerConfig) (e : EvalCase) (st : Bool) :
    (runSingleEval cfg e st).1.category = e.category := by
  cases hsm : e.supportsStreamMode <;> simp [runSingleEval, hsm]

theorem enum_map_comp {α β : Type} (l : List α) (g : α → β) :
    (l.enum).map (fun p => g p.2) = l.map g := by
  rw [show (fun p : Nat × α => g p.2) = g ∘ Prod.snd from rfl, ← List.map_map,
    List.enum_map_snd]

/-- C4: for every registry and configuration, the orchestrator produces
exactly one `Result` per submitted (case, mode) job: the output has exactly as
many Results as jobs, and its (name, category) multiset is exactly the jobs'
mode-qualified identities — no selected case dropped or duplicated — whether
the run is sequential (`Jobs <= 1`, where the output is exactly the per-job
result list) or a worker pool of any size (where arrival order and the
`SetStreaming` race are the nondeterminism).  In particular, in `both` mode
(also the empty default) there are exactly `2N` jobs for `N` selected cases,
and in a blocking-only or streaming-only run exactly `N`. -/
theorem c4_exactly_one_result_per_pair (cfg : RunnerConfig) (registry : List EvalCase)
    (out : List Result) (h : RunOutcome cfg registry out) :
    out.length = (submittedJobs cfg (selectEvals cfg registry)).length ∧
    (out.map (fun r => (r.name, r.category))).Perm
      ((submittedJobs cfg (selectEvals cfg registry)).map
        (fun j => (j.1.name ++ (if j.2 then " (streaming)" else " (blocking)"),
          j.1.category))) ∧
    (cfg.jobs ≤ 1 →
      out = (submittedJobs cfg (selectEvals cfg registry)).map
        (fun j => (runSingleEval cfg j.1 j.2).1)) ∧
    ((cfg.mode = ModeBoth ∨ cfg.mode = "") →
      (submittedJobs cfg (selectEvals cfg registry)).length =
        2 * (selectEvals cfg registry).length) ∧
    ((cfg.mode = ModeBlocking ∨ cfg.mode = ModeStreaming) →
      (submittedJobs cfg (selectEvals cfg registry)).length =
        (selectEvals cfg registry).length) := by
  simp only [RunOutcome] at h
  have hmodeboth : (cfg.mode = ModeBoth ∨ cfg.mode = "") →
      (submittedJobs cfg (selectEvals cfg registry)).length =
        2 * (selectEvals cfg registry).length := by
    intro hm
    rw [submittedJobs_both cfg _ hm]
    exact flatMap_pair_length _ _ _
  have hmodesingle : (cfg.mode = ModeBlocking ∨ cfg.mode = ModeStreaming) →
      (submittedJobs cfg (selectEvals cfg registry)).length =
        (selectEvals cfg registry).length := by
    rintro (hm | hm)
    · rw [submittedJobs_blocking cfg _ hm, List.length_map]
    · rw [submittedJobs_streaming cfg _ hm, List.length_map]
  by_cases hj : cfg.jobs ≤ 1
  · rw [if_pos hj] at h
    rw [h, runSequential_eq_jobs_map]
    refine ⟨by rw [List.length_map], ?_, fun _ => rfl, hmodeboth, hmodesingle⟩
    rw [List.map_map]
    have h4 : (submittedJobs cfg (selectEvals cfg registry)).map
        ((fun r : Result => (r.name, r.category)) ∘
          (fun j : EvalCase × Bool => (runSingleEval cfg j.1 j.2).1)) =
        (submittedJobs cfg (selectEvals cfg registry)).map
          (fun j => (j.1.name ++ (if j.2 then " (streaming)" else " (blocking)"),
            j.1.category)) := by
      apply List.map_congr_left
      intro j hj2
      simp only [Function.comp]
      rw [runSingleEval_name cfg j.1 j.2, runSingleEval_category cfg j.1 j.2]
    rw [h4]
  · rw [if_neg hj] at h
    obtain ⟨obs, hperm⟩ := h
    have hlen : out.length = (submittedJobs cfg (selectEvals cfg registry)).length := by
      rw [hperm.length_eq, List.length_map, List.enum_length]
    refine ⟨hlen, ?_, fun hc => absurd hc hj, hmodeboth, hmodesingle⟩
    have h2 := hperm.map (fun r => (r.name, r.category))
    have h4 : ((((submittedJobs cfg (selectEvals cfg registry)).enum).map
        (fun p => parallelJobResult cfg p.2.1 p.2.2 (obs p.1))).map
          (fun r => (r.name, r.category))) =
        (submittedJobs cfg (selectEvals cfg registry)).map
          (fun j => (j.1.name ++ (if j.2 then " (streaming)" else " (blocking)"),
            j.1.category)) := by
      rw [List.map_map]
      exact enum_map_comp (submittedJobs cfg (selectEvals cfg registry))
        (fun j => (j.1.name ++ (if j.2 then " (streaming)" else " (blocking)"),
          j.1.category))
    rw [← h4]
    exact h2

/-- C5: a case that does not implement `StreamModeEval` is never handed the
delivery mode — every invocation runs it at its own (default) streaming state,
whatever mode the job carries — while a case that does implement it is handed
the job's mode through the setter before each invocation. -/
theorem c5_capability_gates_mode (cfg : RunnerConfig) (e : EvalCase) (st : Bool) :
    (e.supportsStreamMode = false →
      ((runSingleEval cfg e st).1.passed, (runSingleEval cfg e st).1.message) =
        e.run e.streaming) ∧
    (e.supportsStreamMode = true →
      ((runSingleEval cfg e st).1.passed, (runSingleEval cfg e st).1.message) =
        e.run st) := by
  constructor
  · intro hns
    simp [runSingleEval, hns]
  · intro hs
    simp [runSingleEval, hs]

/-- C6: tiers form the inclusion hierarchy standard ⊆ reasoning ⊆ interleaved:
`ClassMatches` holds exactly when the case's tier rank is at or below the
requested tier's rank; an empty requested tier matches every class; and under
an empty name filter with `All` set, selection is exactly the tier-rank
filter. -/
theorem c6_tier_inclusion :
    (∀ ec ∈ [ClassStandard, ClassReasoning, ClassInterleaved],
      ∀ rc ∈ [ClassStandard, ClassReasoning, ClassInterleaved],
        (ClassMatches ec rc = true ↔ classRank ec ≤ classRank rc)) ∧
    (∀ ec : String, ClassMatches ec "" = true) ∧
    (∀ (cfg : RunnerConfig) (evals : List EvalCase),
      cfg.filter = "" → cfg.all = true →
      (∀ e ∈ evals, e.className ∈ [ClassStandard, ClassReasoning, ClassInterleaved]) →
      cfg.className ∈ ["", ClassStandard, ClassReasoning, ClassInterleaved] →
      selectEvals cfg evals =
        evals.filter (fun e => classRank e.className ≤ classRank cfg.className)) := by
  refine ⟨?_, ?_, ?_⟩
  · decide
  · intro ec
    unfold ClassMatches
    simp
  · intro cfg evals hf ha hcls hreq
    unfold selectEvals
    apply List.filter_congr
    intro e he
    have he3 := hcls e he
    simp only [List.mem_cons, List.mem_singleton, List.not_mem_nil, or_false] at he3 hreq
    rcases he3 with h1 | h1 | h1 <;> rcases hreq with h2 | h2 | h2 | h2 <;>
      simp [hf, ha, h1, h2, ClassMatches, classRank, IsDefaultDisabled, ClassStandard,
        ClassReasoning, ClassInterleaved]

end Eval

namespace Eval

theorem str_append_right_inj (s a b : String) (hab : a ≠ b) : s ++ a ≠ s ++ b := by
  intro hEq
  apply hab
  apply String.ext
  have hd := congrArg String.data hEq
  rw [String.data_append, String.data_append] at hd
  exact List.append_cancel_left hd

theorem str_append_ne_self (s t : String) (ht : t ≠ "") : s ++ t ≠ s := by
  intro hEq
  apply ht
  apply String.ext
  have hd := congrArg String.data hEq
  rw [String.data_append] at hd
  have hd2 : s.data ++ t.data = s.data ++ [] := by
    rw [hd, List.append_nil]
  exact List.append_cancel_left hd2

/-- C8 counterexample: with the orchestrator running only the blocking mode
(a single mode), the produced Result name is still mode-qualified — it is
`"weather tool call (blocking)"`, not the unqualified case name
`"weather tool call"` the claim requires. -/
theorem c8_single_mode_unqualified_cex :
    (runEvalInModes c8CfgBlocking c8Eval).map (fun r => r.name) =
      ["weather tool call (blocking)"] ∧
    ("weather tool call (blocking)" : String) ≠ "weather tool call" :=
  ⟨rfl, by decide⟩

/-- C8 amended: a Result's name is always mode-qualified with the delivery
mode of that run. In `both` mode (or the empty mode defaulting to it) one case
yields two Results with distinct mode-qualified names sharing the case
identity; in a single-mode run the name carries that single mode's suffix and
still differs from the unqualified case name. -/
theorem c8_names_always_qualified (cfg : RunnerConfig) (e : EvalCase) :
    ((cfg.mode = ModeBoth ∨ cfg.mode = "") →
      (runEvalInModes cfg e).map (fun r => r.name) =
        [e.name ++ " (blocking)", e.name ++ " (streaming)"] ∧
      e.name ++ " (blocking)" ≠ e.name ++ " (streaming)") ∧
    (cfg.mode = ModeBlocking →
      (runEvalInModes cfg e).map (fun r => r.name) = [e.name ++ " (blocking)"] ∧
      e.name ++ " (blocking)" ≠ e.name) ∧
    (cfg.mode = ModeStreaming →
      (runEvalInModes cfg e).map (fun r => r.name) = [e.name ++ " (streaming)"] ∧
      e.name ++ " (streaming)" ≠ e.name) := by
  refine ⟨?_, ?_, ?_⟩
  · rintro (hm | hm) <;>
      refine ⟨?_, str_append_right_inj _ _ _ (by decide)⟩ <;>
      simp [runEvalInModes, runSingleEval, hm, ModeBoth, ModeBlocking, ModeStreaming] <;>
      cases e.supportsStreamMode <;> simp
  · intro hm
    refine ⟨?_, str_append_ne_self e.name " (blocking)" (by decide)⟩
    simp [runEvalInModes, runSingleEval, hm, ModeBoth, ModeBlocking, ModeStreaming]
    cases e.supportsStreamMode <;> simp
  · intro hm
    refine ⟨?_, str_append_ne_self e.name " (streaming)" (by decide)⟩
    simp [runEvalInModes, runSingleEval, hm, ModeBoth, ModeBlocking, ModeStreaming]
    cases e.supportsStreamMode <;> simp

/-- C9: the presence or absence of the logger collaborator changes neither the
`Passed` flag nor the `Message` of any Result — per invocation, across a whole
sequential run, and for the set of possible parallel outcomes. -/
theorem c9_logger_invisible (cfg : RunnerConfig) (e : EvalCase) (st : Bool)
    (registry : List EvalCase) (out : List Result) :
    ((runSingleEval { cfg with hasLogger := true } e st).1.passed =
        (runSingleEval { cfg with hasLogger := false } e st).1.passed) ∧
    ((runSingleEval { cfg with hasLogger := true } e st).1.message =
        (runSingleEval { cfg with hasLogger := false } e st).1.message) ∧
    ((runSequential { cfg with hasLogger := true } registry).map
        (fun r => (r.passed, r.message)) =
      (runSequential { cfg with hasLogger := false } registry).map
        (fun r => (r.passed, r.message))) ∧
    (ParallelOutcome { cfg with hasLogger := true } registry out ↔
      ParallelOutcome { cfg with hasLogger := false } registry out) :=
  ⟨rfl, rfl, rfl, Iff.rfl⟩

end Eval

namespace Eval

/-- Witness for C4: two cases, two workers, mode `both` — one possible
parallel outcome satisfies the hypothesis, yielding exactly 2·2 Results with
the four mode-qualified (name, category) identities. -/
theorem c4_exactly_one_result_per_pair_witness :
    (c4Out.length = (submittedJobs c4Cfg (selectEvals c4Cfg c4Registry)).length ∧
      (c4Out.map (fun r => (r.name, r.category))).Perm
        ((submittedJobs c4Cfg (selectEvals c4Cfg c4Registry)).map
          (fun j => (j.1.name ++ (if j.2 then " (streaming)" else " (blocking)"),
            j.1.category))) ∧
      (c4Cfg.jobs ≤ 1 →
        c4Out = (submittedJobs c4Cfg (selectEvals c4Cfg c4Registry)).map
          (fun j => (runSingleEval c4Cfg j.1 j.2).1)) ∧
      ((c4Cfg.mode = ModeBoth ∨ c4Cfg.mode = "") →
        (submittedJobs c4Cfg (selectEvals c4Cfg c4Registry)).length =
          2 * (selectEvals c4Cfg c4Registry).length) ∧
      ((c4Cfg.mode = ModeBlocking ∨ c4Cfg.mode = ModeStreaming) →
        (submittedJobs c4Cfg (selectEvals c4Cfg c4Registry)).length =
          (selectEvals c4Cfg c4Registry).length)) ∧
    c4Out.length = 4 ∧ (selectEvals c4Cfg c4Registry).length = 2 :=
  ⟨c4_exactly_one_result_per_pair c4Cfg c4Registry c4Out (by
      simp only [RunOutcome, ParallelOutcome]
      rw [if_neg (by decide)]
      exact ⟨c4Obs, List.Perm.refl _⟩),
   by rfl, by rfl⟩

/-- Witness for C5: the non-capable case observes its default state even on a
streaming job; the capable case observes the job's mode. -/
theorem c5_capability_gates_mode_witness :
    (((runSingleEval c5Cfg c5EvalPlain true).1.passed,
      (runSingleEval c5Cfg c5EvalPlain true).1.message) =
        c5EvalPlain.run c5EvalPlain.streaming) ∧
    (((runSingleEval c5Cfg c5EvalSwitchable true).1.passed,
      (runSingleEval c5Cfg c5EvalSwitchable true).1.message) =
        c5EvalSwitchable.run true) :=
  ⟨(c5_capability_gates_mode c5Cfg c5EvalPlain true).1 rfl,
   (c5_capability_gates_mode c5Cfg c5EvalSwitchable true).2 rfl⟩

/-- Witness for C6 at the spec §8 example \x7bA:standard, B:reasoning,
C:interleaved\x7d with requested tier reasoning: selection is the rank filter,
which yields exactly [A, B]. -/
theorem c6_tier_inclusion_witness :
    (ClassMatches ClassStandard ClassReasoning = true ↔
      classRank ClassStandard ≤ classRank ClassReasoning) ∧
    (ClassMatches "custom" "" = true) ∧
    (selectEvals c6Cfg c6Evals =
      c6Evals.filter (fun e => classRank e.className ≤ classRank c6Cfg.className)) ∧
    c6Evals.filter (fun e => classRank e.className ≤ classRank c6Cfg.className) =
      [c6A, c6B] :=
  ⟨c6_tier_inclusion.1 ClassStandard (by decide) ClassReasoning (by decide),
   c6_tier_inclusion.2.1 "custom",
   c6_tier_inclusion.2.2 c6Cfg c6Evals rfl rfl (by decide) (by decide),
   by rfl⟩

/-- Witness for the amended C8: both-mode run yields the two distinct
mode-qualified names; blocking-only run yields the blocking-qualified name,
distinct from the bare case name. -/
theorem c8_names_always_qualified_witness :
    ((runEvalInModes c8CfgBoth c8Eval).map (fun r => r.name) =
        [c8Eval.name ++ " (blocking)", c8Eval.name ++ " (streaming)"] ∧
      c8Eval.name ++ " (blocking)" ≠ c8Eval.name ++ " (streaming)") ∧
    ((runEvalInModes c8CfgBlocking c8Eval).map (fun r => r.name) =
        [c8Eval.name ++ " (blocking)"] ∧
      c8Eval.name ++ " (blocking)" ≠ c8Eval.name) :=
  ⟨(c8_names_always_qualified c8CfgBoth c8Eval).1 (Or.inl rfl),
   (c8_names_always_qualified c8CfgBlocking c8Eval).2.1 rfl⟩

end Eval
